import Mathlib

/-!
Verification of the `scattergather` Go library (`scattergather.go` and
`x/sync/semaphore/semaphore_size.go`).

Modelling conventions:
* A Go slice is modelled as `Option (List α)`: `none` is the nil slice,
  `some l` a slice with elements `l`.  `len` and `range` treat the nil
  slice as empty, which `sliceList` captures.
* A Go `error` value is modelled by `GoError`: either a plain error
  (`base`, identified by a numeric identity used by `errors.Is`, plus its
  message) or a `*ScatteredError` seen through the `error` interface
  (`scattered`, carrying its `Errors` slice).
* A nil-able pointer receiver is modelled by an `Option` argument.
-/

/-- The elements of a Go slice: `len` and `range` of a nil slice behave as
for an empty one. -/
def sliceList {α : Type} : Option (List α) → List α
  | none => []
  | some l => l

/-- A Go `error` value: a plain error with an identity (two plain errors
satisfy `errors.Is` exactly when their identities coincide, modelling
comparable equality / a cause-matching `Is` method) and a message, or a
`*ScatteredError` with its `Errors` slice. -/
inductive GoError : Type where
  | base (ident : Nat) (msg : String)
  | scattered (errs : Option (List GoError))

theorem sliceList_sizeOf_le (o : Option (List GoError)) :
    sizeOf (sliceList o) ≤ sizeOf o := by
  cases o <;> simp [sliceList]

mutual
/-- Go's `errors.Is err target` restricted to this error universe: two plain
errors match when their identities coincide; a `*ScatteredError` on the left
is compared via its `Is` method (`scatteredIsCore`); a plain error never
matches a `*ScatteredError` target. -/
def errorsIs : GoError → GoError → Bool
  | GoError.base i _, GoError.base j _ => i == j
  | GoError.base _ _, GoError.scattered _ => false
  | GoError.scattered es, t => scatteredIsCore es t
termination_by a b => sizeOf a + sizeOf b
decreasing_by
  all_goals simp_wf

/-- The body of `(*ScatteredError).Is` from `scattergather.go`: the target
must be a `*ScatteredError` (`target.(*ScatteredError)`), the two `Errors`
slices must have equal length, and each element of the target's slice must
satisfy `errors.Is` against the corresponding receiver element. -/
def scatteredIsCore : Option (List GoError) → GoError → Bool
  | _, GoError.base _ _ => false
  | es, GoError.scattered ts =>
      if (sliceList es).length = (sliceList ts).length then
        pairsIs (sliceList ts) (sliceList es)
      else false
termination_by es t => sizeOf es + sizeOf t
decreasing_by
  simp_wf
  have h1 := sliceList_sizeOf_le es
  have h2 := sliceList_sizeOf_le ts
  omega

/-- The loop `for i, err := range t.Errors { if !errors.Is(err, e.Errors[i])
{ return false } }`: first list is the target's elements, second the
receiver's.  (Reached only with lists of equal length.) -/
def pairsIs : List GoError → List GoError → Bool
  | [], _ => true
  | _ :: _, [] => true
  | t :: ts, e :: es => errorsIs t e && pairsIs ts es
termination_by l1 l2 => sizeOf l1 + sizeOf l2
decreasing_by
  all_goals simp_wf
  all_goals omega
end

/-- `type ScatteredError struct { Errors []error }`. -/
structure ScatteredError : Type where
  Errors : Option (List GoError)

/-- `(*ScatteredError).Is` as a method on a non-nil receiver. -/
def ScatteredError.Is (e : ScatteredError) (target : GoError) : Bool :=
  scatteredIsCore e.Errors target

/-- `(*ScatteredError).HasErrors`: `e != nil && e.Errors != nil &&
len(e.Errors) > 0`; the receiver may be nil (`none`). -/
def ScatteredError.HasErrors : Option ScatteredError → Bool
  | none => false
  | some e =>
    match e.Errors with
    | none => false
    | some l => decide (0 < l.length)

/-- `(*ScatteredError).AddError`: start a fresh slice when `Errors` is nil,
otherwise append. -/
def ScatteredError.AddError (e : ScatteredError) (err : GoError) : ScatteredError :=
  match e.Errors with
  | none => ⟨some [err]⟩
  | some l => ⟨some (l ++ [err])⟩

mutual
/-- `err.Error()` for a `GoError`: a plain error renders its message, a
`*ScatteredError` renders via its `Error` method body. -/
def errMsg : GoError → String
  | GoError.base _ m => m
  | GoError.scattered es => scatteredErrorStr es
termination_by e => sizeOf e
decreasing_by
  all_goals simp_wf

/-- The non-nil-receiver part of `(*ScatteredError).Error`: placeholder when
`Errors` is nil or empty, otherwise the first message followed by each
further message preceded by a newline. -/
def scatteredErrorStr : Option (List GoError) → String
  | none => "(empty scattered error)"
  | some [] => "(empty scattered error)"
  | some (h :: t) => joinMsgs (errMsg h) t
termination_by es => sizeOf es
decreasing_by
  all_goals simp_wf
  all_goals omega

/-- The loop `for _, err := range e.Errors[1:] { errstr += "\n" + err.Error() }`. -/
def joinMsgs : String → List GoError → String
  | acc, [] => acc
  | acc, e :: rest => joinMsgs (acc ++ "\n" ++ errMsg e) rest
termination_by _ l => sizeOf l
decreasing_by
  all_goals simp_wf
  all_goals omega
end

/-- `(*ScatteredError).Error` with a possibly-nil receiver. -/
def ScatteredError.Error : Option ScatteredError → String
  | none => "(nil error)"
  | some e => scatteredErrorStr e.Errors

example : errorsIs (GoError.base 1 "a") (GoError.base 1 "b") = true := by
  simp [errorsIs.eq_def]

example : ScatteredError.Is ⟨some [GoError.base 1 "a"]⟩
    (GoError.scattered (some [GoError.base 1 "b"])) = true := by
  simp [ScatteredError.Is, scatteredIsCore.eq_def, pairsIs.eq_def, errorsIs.eq_def,
    sliceList]

example : ScatteredError.Error (some ⟨some [GoError.base 0 "x", GoError.base 1 "y"]⟩)
    = "x\ny" := by
  simp [ScatteredError.Error, scatteredErrorStr.eq_def, joinMsgs.eq_def, errMsg.eq_def]

/-- `type scatterResult[T any] struct { val T; err error }`. -/
structure scatterResult (T : Type) : Type where
  val : T
  err : Option GoError

/-- The coordinator state the collector mutates: `sg.results` and
`sg.errors`.  `sg.results` starts as an empty non-nil slice, so a plain list
suffices; `sg.errors` starts as `&ScatteredError{}` whose `Errors` field is
set to `make([]error, 0)` by `sg.init`. -/
structure GatherState (T : Type) : Type where
  results : List T
  errors : ScatteredError

/-- The collector state established by `sg.init`. -/
def initGatherState (T : Type) : GatherState T :=
  { results := [], errors := ⟨some []⟩ }

/-- The body of the collector loop in `gatherer`: a non-nil error is added
to `sg.errors`; the value is appended to `sg.results` when the error is nil
or `sg.keepAllResults` is set. -/
def gatherStep {T : Type} (keepAllResults : Bool) (st : GatherState T)
    (res : scatterResult T) : GatherState T :=
  let errors :=
    match res.err with
    | some e => st.errors.AddError e
    | none => st.errors
  let results :=
    if res.err.isNone || keepAllResults then st.results ++ [res.val]
    else st.results
  { results := results, errors := errors }

/-- The collector `gatherer`: drains the outcomes received on
`sg.resultChan` (given in drain order) into the coordinator state. -/
def gatherer {T : Type} (keepAllResults : Bool) (st : GatherState T)
    (outcomes : List (scatterResult T)) : GatherState T :=
  outcomes.foldl (gatherStep keepAllResults) st

/-- The goroutine body spawned by `Run`: when `sg.semaphore.Acquire` fails
with a cancellation error, the outcome `scatterResult[T]{err: err}` (with
the zero value of `T` in `val`) is posted and the goroutine returns without
ever invoking `callable`; otherwise the task body runs and
`scatterResult[T]{val: ret, err: err}` is posted.  `zero` is the zero value
of `T`. -/
def runOutcome {T : Type} (zero : T) (acquireErr : Option GoError)
    (callable : Unit → T × Option GoError) : scatterResult T :=
  match acquireErr with
  | some err => { val := zero, err := some err }
  | none =>
    let r := callable ()
    { val := r.1, err := r.2 }

/-- `Wait` after a scatter phase whose posted outcomes arrive on
`sg.resultChan` in the order `outcomes`.  `sg.waitGroup.Wait()` returns once
every execution unit is done, and `close(sg.resultChan)` succeeds; but
`<-sg.doneChan` returns only if the collector goroutine was started, since
the collector alone closes `sg.doneChan`, and only `Run` starts it (via
`sg.gather()`).  The value `none` models `Wait` blocking forever on
`<-sg.doneChan`; otherwise the collector has drained every outcome and
`Wait` returns `sg.results` together with `nil` or `sg.errors` depending on
`sg.errors.HasErrors()`. -/
def Wait (T : Type) (keepAllResults gatherStarted : Bool)
    (outcomes : List (scatterResult T)) :
    Option (List T × Option ScatteredError) :=
  if gatherStarted then
    let st := gatherer keepAllResults (initGatherState T) outcomes
    if ScatteredError.HasErrors (some st.errors) then
      some (st.results, some st.errors)
    else some (st.results, none)
  else none

/-- A whole batch: `Run` is called once per outcome (each execution unit
posts exactly one outcome to `sg.resultChan`), then `Wait`; the collector
has been started exactly when at least one `Run` happened. -/
def runBatch (T : Type) (keepAllResults : Bool)
    (outcomes : List (scatterResult T)) :
    Option (List T × Option ScatteredError) :=
  Wait T keepAllResults (!outcomes.isEmpty) outcomes

/-- Modelled from the spec: the state of the vendored `x/sync/semaphore`
`Weighted` semaphore (its `semaphore.go` is not under `src/`; only the
`SetSize` extension is): the total permit count `size`, the permits
currently checked out `cur`, and the FIFO queue of pending acquire requests
`waiters`, each carrying its requested permit count. -/
structure Weighted : Type where
  size : Int
  cur : Int
  waiters : List Int

/-- Modelled from the spec: queue processing on release and size-increase —
waiters are woken in FIFO order, the head only when enough permits exist for
its specific request (the scan stops as soon as `size - cur < n`;
head-of-line blocking is intentional).  Returns the new checked-out count
and the remaining queue. -/
def notifyWaitersAux (size : Int) : Int → List Int → Int × List Int
  | cur, [] => (cur, [])
  | cur, n :: rest =>
    if size - cur < n then (cur, n :: rest)
    else notifyWaitersAux size (cur + n) rest

/-- Modelled from the spec: `notifyWaiters` applies the queue scan to the
semaphore state, under its lock. -/
def notifyWaiters (s : Weighted) : Weighted :=
  let p := notifyWaitersAux s.size s.cur s.waiters
  { size := s.size, cur := p.1, waiters := p.2 }

/-- `SetSize` from `semaphore_size.go`: under the lock, replace `s.size` by
`newSize` and run `s.notifyWaiters()`. -/
def SetSize (s : Weighted) (newSize : Int) : Weighted :=
  notifyWaiters { size := newSize, cur := s.cur, waiters := s.waiters }

/-- Modelled from the spec: with a fixed concurrency limit `L`, each
execution unit performs `Acquire(ctx, 1)` before running its task body and
`Release(1)` afterwards; an acquire succeeds only while the permits checked
out stay within the total.  The state is the number of execution units
currently inside their task body, each holding one permit. -/
inductive PermitStep (L : Nat) : Nat → Nat → Prop where
  | acquire (r : Nat) : r + 1 ≤ L → PermitStep L r (r + 1)
  | release (r : Nat) : PermitStep L (r + 1) r

/-- The states reachable from the idle coordinator, where no task body is
running. -/
inductive PermitReachable (L : Nat) : Nat → Prop where
  | init : PermitReachable L 0
  | step {r r' : Nat} : PermitReachable L r → PermitStep L r r' →
      PermitReachable L r'

theorem gatherStep_results {T : Type} (keepAllResults : Bool)
    (st : GatherState T) (o : scatterResult T) :
    (gatherStep keepAllResults st o).results =
      if o.err.isNone || keepAllResults then st.results ++ [o.val]
      else st.results := by
  simp [gatherStep]

theorem gatherStep_errors {T : Type} (keepAllResults : Bool)
    (st : GatherState T) (o : scatterResult T) (l : List GoError)
    (h : st.errors.Errors = some l) :
    (gatherStep keepAllResults st o).errors.Errors = some (l ++ o.err.toList) := by
  cases o with
  | mk v e =>
    cases e <;> simp [gatherStep, ScatteredError.AddError, h]

theorem gatherer_results {T : Type} (keepAllResults : Bool)
    (outcomes : List (scatterResult T)) (st : GatherState T) :
    (gatherer keepAllResults st outcomes).results =
      st.results ++
        ((outcomes.filter fun o => o.err.isNone || keepAllResults).map
          fun o => o.val) := by
  induction outcomes generalizing st with
  | nil => simp [gatherer]
  | cons o os ih =>
    have hstep := gatherStep_results keepAllResults st o
    by_cases hc : (o.err.isNone || keepAllResults) = true
    · simp only [gatherer, List.foldl_cons] at *
      rw [ih, hstep]
      simp [List.filter_cons, hc]
    · simp only [gatherer, List.foldl_cons] at *
      rw [ih, hstep]
      simp only [Bool.not_eq_true] at hc
      simp [List.filter_cons, hc]

theorem gatherer_errors {T : Type} (keepAllResults : Bool)
    (outcomes : List (scatterResult T)) (st : GatherState T) (l : List GoError)
    (h : st.errors.Errors = some l) :
    (gatherer keepAllResults st outcomes).errors.Errors =
      some (l ++ outcomes.filterMap fun o => o.err) := by
  induction outcomes generalizing st l with
  | nil => simp [gatherer, h]
  | cons o os ih =>
    have hstep := gatherStep_errors keepAllResults st o l h
    simp only [gatherer, List.foldl_cons] at *
    rw [ih _ _ hstep]
    cases ho : o.err <;> simp [List.filterMap_cons, ho]

theorem filter_none_length_add {T : Type} (outcomes : List (scatterResult T)) :
    (outcomes.filter fun o => o.err.isNone).length +
      (outcomes.filterMap fun o => o.err).length = outcomes.length := by
  induction outcomes with
  | nil => simp
  | cons o os ih =>
    cases ho : o.err <;>
      simp [List.filter_cons, List.filterMap_cons, ho] <;> omega

/-- C2: for every outcome drained by the collector, a non-nil error is
appended to the error aggregate and the value is appended to results exactly
when the error is nil or `keepAllResults` is set at drain time; over a whole
drain, errors and values appear in drain order. -/
theorem scattergather_claim2 {T : Type} (keepAllResults : Bool) :
    (∀ (st : GatherState T) (o : scatterResult T),
      sliceList (gatherStep keepAllResults st o).errors.Errors =
        sliceList st.errors.Errors ++ o.err.toList ∧
      (gatherStep keepAllResults st o).results =
        (if o.err.isNone || keepAllResults then st.results ++ [o.val]
         else st.results)) ∧
    (∀ outcomes : List (scatterResult T),
      (gatherer keepAllResults (initGatherState T) outcomes).errors.Errors =
        some (outcomes.filterMap fun o => o.err) ∧
      (gatherer keepAllResults (initGatherState T) outcomes).results =
        ((outcomes.filter fun o => o.err.isNone || keepAllResults).map
          fun o => o.val)) := by
  constructor
  · intro st o
    refine ⟨?_, gatherStep_results keepAllResults st o⟩
    cases st with
    | mk rs es =>
      cases es with
      | mk E =>
        cases E <;> cases ho : o.err <;>
          simp [gatherStep, ScatteredError.AddError, sliceList, ho]
  · intro outcomes
    refine ⟨?_, ?_⟩
    · have := gatherer_errors keepAllResults outcomes (initGatherState T) []
        (by simp [initGatherState])
      simpa using this
    · have := gatherer_results keepAllResults outcomes (initGatherState T)
      simpa [initGatherState] using this

/-- C1 (amended: the batch must contain at least one task, since with no
submission the collector is never started and `Wait` blocks): for a batch of
N completed tasks of which K report a non-nil error, `Wait` returns N−K
values when `keepAllResults` is false and N values when it is true, and
returns a nil error when K = 0 and otherwise the aggregate holding exactly
the K errors. -/
theorem scattergather_claim1 {T : Type} (keepAllResults : Bool)
    (outcomes : List (scatterResult T)) (hne : 0 < outcomes.length) :
    ∃ (results : List T) (errOut : Option ScatteredError),
      runBatch T keepAllResults outcomes = some (results, errOut) ∧
      results.length =
        (if keepAllResults then outcomes.length
         else outcomes.length - (outcomes.filterMap fun o => o.err).length) ∧
      ((outcomes.filterMap fun o => o.err).length = 0 → errOut = none) ∧
      (0 < (outcomes.filterMap fun o => o.err).length →
        ∃ agg : ScatteredError, errOut = some agg ∧
          agg.Errors = some (outcomes.filterMap fun o => o.err)) := by
  have hne' : outcomes.isEmpty = false := by
    cases outcomes with
    | nil => simp at hne
    | cons a l => simp
  have herr := gatherer_errors keepAllResults outcomes (initGatherState T) []
    (by simp [initGatherState])
  have hres := gatherer_results keepAllResults outcomes (initGatherState T)
  simp only [List.nil_append] at herr hres
  refine ⟨(gatherer keepAllResults (initGatherState T) outcomes).results,
    ?_, ?_, ?_, ?_, ?_⟩
  · exact if ScatteredError.HasErrors
      (some (gatherer keepAllResults (initGatherState T) outcomes).errors)
      then some (gatherer keepAllResults (initGatherState T) outcomes).errors
      else none
  · simp only [runBatch, Wait, hne', Bool.not_false, if_true]
    split <;> rfl
  · have hres2 : (gatherer keepAllResults (initGatherState T) outcomes).results =
        ((outcomes.filter fun o => o.err.isNone || keepAllResults).map
          fun o => o.val) := by
      rw [hres]
      simp [initGatherState]
    rw [hres2]
    by_cases hk : keepAllResults = true
    · subst hk
      simp
    · simp only [Bool.not_eq_true] at hk
      subst hk
      have hsplit := filter_none_length_add outcomes
      simp only [Bool.or_false, List.length_map, Bool.false_eq_true, if_false]
      omega
  · intro hzero
    have : (outcomes.filterMap fun o => o.err) = [] :=
      List.eq_nil_of_length_eq_zero hzero
    rw [if_neg]
    rw [ScatteredError.HasErrors, herr, this]
    simp
  · intro hpos
    rw [if_pos]
    · exact ⟨_, rfl, herr⟩
    · rw [ScatteredError.HasErrors, herr]
      simpa using hpos

/-- C1 witness: a concrete two-task batch with one failure and
`keepAllResults` false yields one value and a one-error aggregate. -/
theorem scattergather_claim1_witness :
    ∃ (results : List Int) (errOut : Option ScatteredError),
      runBatch Int false
        [⟨4, none⟩, ⟨0, some (GoError.base 7 "boom")⟩] = some (results, errOut) ∧
      results.length = (if false then 2 else 2 - 1) ∧
      ((1 : Nat) = 0 → errOut = none) ∧
      ((0 : Nat) < 1 →
        ∃ agg : ScatteredError, errOut = some agg ∧
          agg.Errors = some [GoError.base 7 "boom"]) := by
  have h := @scattergather_claim1 Int false
    [⟨4, none⟩, ⟨0, some (GoError.base 7 "boom")⟩] (by decide)
  simpa using h

/-- C1 counterexample: in the degenerate batch with N = 0 submitted tasks
(all of which trivially ran to completion, K = 0), `Wait` does not return a
0-value result list with a nil error as claimed — it blocks forever
(modelled by `none`), because no `Run` ever started the collector that
closes `doneChan`. -/
theorem scattergather_claim1_cex :
    runBatch Int false [] = none ∧
    ∀ r : List Int × Option ScatteredError,
      runBatch Int false [] ≠ some r := by
  refine ⟨rfl, ?_⟩
  intro r
  simp [runBatch, Wait]

/-- C3: `Wait` on a coordinator on which `Run` was never called does not
return an empty result list and nil error — it blocks forever on
`<-sg.doneChan` (modelled by `none`), because the collector goroutine, the
only closer of `sg.doneChan`, is started solely by `Run` via `sg.gather()`;
`sg.waitGroup.Wait()` and `close(sg.resultChan)` do complete.  This
evaluates the code at the failing input of the reported bug. -/
theorem scattergather_claim3 :
    Wait Int false false [] = none ∧
    Wait Int true false [] = none ∧
    runBatch Int false [] ≠ some ([], none) ∧
    ∀ keepAllResults : Bool,
      ∀ r : List Int × Option ScatteredError,
        Wait Int keepAllResults false [] ≠ some r := by
  refine ⟨rfl, rfl, by simp [runBatch, Wait], ?_⟩
  intro keepAllResults r
  simp [Wait]

/-- C4 (amended): for a submission whose permit acquisition is aborted, the
task body is never run (the posted outcome is the zero value plus the
cancellation error, whatever the callable is), the cancellation error is
added to the aggregate exactly like a task error, and the zero-value result
is not appended to results when `keepAllResults` is false — but when
`keepAllResults` is true it is appended, like any failed task's
placeholder value. -/
theorem scattergather_claim4 {T : Type} (zero : T) (cancelErr : GoError)
    (callable : Unit → T × Option GoError) (keepAllResults : Bool)
    (st : GatherState T) :
    runOutcome zero (some cancelErr) callable =
      ⟨zero, some cancelErr⟩ ∧
    (gatherStep keepAllResults st
        (runOutcome zero (some cancelErr) callable)).errors =
      st.errors.AddError cancelErr ∧
    (gatherStep keepAllResults st
        (runOutcome zero (some cancelErr) callable)).results =
      (if keepAllResults then st.results ++ [zero] else st.results) := by
  refine ⟨rfl, rfl, ?_⟩
  rw [gatherStep_results]
  simp [runOutcome]

/-- C4 counterexample: with `keepAllResults` set, draining the outcome of a
cancelled submission does append the zero value to results (the claim says
it is never appended regardless of `keepAllResults`). -/
theorem scattergather_claim4_cex :
    (gatherer true (initGatherState Int)
        [runOutcome 0 (some (GoError.base 0 "context canceled"))
          (fun _ => (7, none))]).results = [0] ∧
    ([0] : List Int) ≠ [] := by
  exact ⟨rfl, by decide⟩

/-- C5: with a fixed concurrency limit L, every reachable state of the
permit-gated execution discipline has at most L task bodies running
concurrently. -/
theorem scattergather_claim5 (L r : Nat) (h : PermitReachable L r) :
    r ≤ L := by
  induction h with
  | init => omega
  | step _ s ih =>
    cases s with
    | acquire _ hle => omega
    | release _ => omega

/-- C5 witness: with limit 2, the state with one running task body is
reachable and within the bound. -/
theorem scattergather_claim5_witness :
    PermitReachable 2 1 ∧ 1 ≤ 2 :=
  ⟨PermitReachable.step PermitReachable.init
      (PermitStep.acquire 0 (by decide)),
   scattergather_claim5 2 1
     (PermitReachable.step PermitReachable.init
       (PermitStep.acquire 0 (by decide)))⟩

theorem notifyWaitersAux_cur_le (size : Int) (l : List Int) (cur : Int)
    (hpos : ∀ w ∈ l, 0 < w) :
    cur ≤ (notifyWaitersAux size cur l).1 := by
  induction l generalizing cur with
  | nil => simp [notifyWaitersAux]
  | cons n rest ih =>
    by_cases hc : size - cur < n
    · simp [notifyWaitersAux, hc]
    · have hn : 0 < n := hpos n (by simp)
      have hrest : ∀ w ∈ rest, 0 < w := fun w hw => hpos w (by simp [hw])
      have := ih (cur + n) hrest
      simp only [notifyWaitersAux, hc, if_false]
      omega

theorem notifyWaitersAux_len_le (size : Int) (l : List Int) (cur : Int) :
    (notifyWaitersAux size cur l).2.length ≤ l.length := by
  induction l generalizing cur with
  | nil => simp [notifyWaitersAux]
  | cons n rest ih =>
    by_cases hc : size - cur < n
    · simp [notifyWaitersAux, hc]
    · have := ih (cur + n)
      simp only [notifyWaitersAux, hc, if_false, List.length_cons]
      omega

/-- C6: `SetSize` replaces the total permit count; growth immediately hands
the surplus to blocked waiters (the head waiter whose request now fits is
granted, without any `Release` call); shrinking — even below the permits
already checked out — never preempts a holder (the checked-out count never
decreases) and, when it leaves the head waiter unsatisfiable, changes
nothing but the total, so availability is only reduced for future
acquisitions.  Waiter requests are positive permit counts. -/
theorem scattergather_claim6 (s : Weighted) (newSize : Int)
    (hpos : ∀ w ∈ s.waiters, 0 < w) :
    (SetSize s newSize).size = newSize ∧
    s.cur ≤ (SetSize s newSize).cur ∧
    (∀ w rest, s.waiters = w :: rest → s.cur + w ≤ newSize →
      s.cur + w ≤ (SetSize s newSize).cur ∧
      (SetSize s newSize).waiters.length ≤ rest.length) ∧
    (newSize < s.cur →
      SetSize s newSize = ⟨newSize, s.cur, s.waiters⟩) := by
  refine ⟨rfl, ?_, ?_, ?_⟩
  · exact notifyWaitersAux_cur_le newSize s.waiters s.cur hpos
  · intro w rest hw hle
    have hrest : ∀ x ∈ rest, 0 < x := by
      intro x hx
      exact hpos x (by simp [hw, hx])
    have hstep : notifyWaitersAux newSize s.cur (w :: rest) =
        notifyWaitersAux newSize (s.cur + w) rest := by
      simp only [notifyWaitersAux]
      rw [if_neg (by omega)]
    constructor
    · show s.cur + w ≤ (notifyWaitersAux newSize s.cur s.waiters).1
      rw [hw, hstep]
      exact notifyWaitersAux_cur_le newSize rest (s.cur + w) hrest
    · show (notifyWaitersAux newSize s.cur s.waiters).2.length ≤ rest.length
      rw [hw, hstep]
      exact notifyWaitersAux_len_le newSize rest (s.cur + w)
  · intro hlt
    cases hwl : s.waiters with
    | nil =>
      simp [SetSize, notifyWaiters, hwl, notifyWaitersAux]
    | cons w rest =>
      have hw : 0 < w := hpos w (by simp [hwl])
      have : newSize - s.cur < w := by omega
      simp [SetSize, notifyWaiters, hwl, notifyWaitersAux, this]

/-- C6 witness: growing a full two-permit semaphore with waiters queued for
1 and 5 permits to five total permits immediately grants the head waiter. -/
theorem scattergather_claim6_witness :
    (∀ w ∈ (⟨2, 2, [1, 5]⟩ : Weighted).waiters, 0 < w) ∧
    (SetSize ⟨2, 2, [1, 5]⟩ 5).size = 5 ∧
    (2 : Int) ≤ (SetSize ⟨2, 2, [1, 5]⟩ 5).cur ∧
    (2 + 1 : Int) ≤ (SetSize ⟨2, 2, [1, 5]⟩ 5).cur ∧
    (SetSize ⟨2, 2, [1, 5]⟩ 5).waiters.length ≤ 1 := by
  have hpos : ∀ w ∈ (⟨2, 2, [1, 5]⟩ : Weighted).waiters, 0 < w := by decide
  have h := scattergather_claim6 ⟨2, 2, [1, 5]⟩ 5 hpos
  exact ⟨hpos, h.1, h.2.1,
    (h.2.2.1 1 [5] rfl (by decide)).1,
    (h.2.2.1 1 [5] rfl (by decide)).2⟩

theorem scatteredIsCore_scattered (es ts : Option (List GoError)) :
    scatteredIsCore es (GoError.scattered ts) =
      if (sliceList es).length = (sliceList ts).length then
        pairsIs (sliceList ts) (sliceList es)
      else false := by
  rw [scatteredIsCore]

theorem pairsIs_cons (t e : GoError) (ts es : List GoError) :
    pairsIs (t :: ts) (e :: es) = (errorsIs t e && pairsIs ts es) := by
  rw [pairsIs]

theorem pairsIs_iff (ts es : List GoError) (hlen : ts.length = es.length) :
    pairsIs ts es = true ↔
      List.Forall₂ (fun a b => errorsIs a b = true) ts es := by
  induction ts generalizing es with
  | nil =>
    cases es with
    | nil => simp [pairsIs]
    | cons e es' => simp at hlen
  | cons t ts' ih =>
    cases es with
    | nil => simp at hlen
    | cons e es' =>
      rw [pairsIs_cons]
      simp only [List.length_cons, Nat.add_right_cancel_iff] at hlen
      rw [Bool.and_eq_true, ih es' hlen, List.forall₂_cons]

theorem pairsIs_self (l : List GoError) (h : ∀ x ∈ l, errorsIs x x = true) :
    pairsIs l l = true := by
  induction l with
  | nil => rw [pairsIs]
  | cons x xs ih =>
    rw [pairsIs_cons, Bool.and_eq_true]
    exact ⟨h x (by simp), ih fun y hy => h y (by simp [hy])⟩

theorem foldl_AddError (l acc : List GoError) :
    l.foldl ScatteredError.AddError ⟨some acc⟩ = ⟨some (acc ++ l)⟩ := by
  induction l generalizing acc with
  | nil => simp
  | cons e rest ih =>
    simp only [List.foldl_cons]
    rw [show (ScatteredError.AddError ⟨some acc⟩ e) = ⟨some (acc ++ [e])⟩ from rfl]
    rw [ih]
    simp

/-- C7: two aggregates compare equal under `Is` iff their error sequences
have equal length and corresponding errors match under the error-identity
relation; different lengths never compare equal; and aggregates built (via
`AddError`) from the same ordered sequence of equal-cause errors compare
equal. -/
theorem scattergather_claim7 (e t : ScatteredError) :
    (e.Is (GoError.scattered t.Errors) = true ↔
      ((sliceList e.Errors).length = (sliceList t.Errors).length ∧
        List.Forall₂ (fun a b => errorsIs a b = true)
          (sliceList t.Errors) (sliceList e.Errors))) ∧
    ((sliceList e.Errors).length ≠ (sliceList t.Errors).length →
      e.Is (GoError.scattered t.Errors) = false) ∧
    (∀ l : List GoError, (∀ x ∈ l, errorsIs x x = true) →
      (l.foldl ScatteredError.AddError ⟨some []⟩).Is
        (GoError.scattered
          (l.foldl ScatteredError.AddError ⟨some []⟩).Errors) = true) := by
  refine ⟨?_, ?_, ?_⟩
  · rw [ScatteredError.Is, scatteredIsCore_scattered]
    by_cases hlen : (sliceList e.Errors).length = (sliceList t.Errors).length
    · rw [if_pos hlen, pairsIs_iff _ _ (by omega)]
      constructor
      · intro hf
        exact ⟨hlen, hf⟩
      · intro hf
        exact hf.2
    · rw [if_neg hlen]
      constructor
      · intro hfalse
        exact absurd hfalse (by simp)
      · intro hf
        exact absurd hf.1 hlen
  · intro hne
    rw [ScatteredError.Is, scatteredIsCore_scattered, if_neg hne]
  · intro l hl
    rw [foldl_AddError]
    simp only [List.nil_append]
    rw [ScatteredError.Is, scatteredIsCore_scattered]
    rw [if_pos rfl]
    exact pairsIs_self l hl

/-- C7 witness: concrete aggregates — equal-length matching sequences
compare equal, different lengths do not. -/
theorem scattergather_claim7_witness :
    ((⟨some [GoError.base 3 "x"]⟩ : ScatteredError).Is
      (GoError.scattered (some [GoError.base 3 "y"])) = true) ∧
    ((⟨some [GoError.base 3 "x"]⟩ : ScatteredError).Is
      (GoError.scattered (some [])) = false) ∧
    (([GoError.base 1 "a", GoError.base 2 "b"].foldl
        ScatteredError.AddError ⟨some []⟩).Is
      (GoError.scattered
        ([GoError.base 1 "a", GoError.base 2 "b"].foldl
          ScatteredError.AddError ⟨some []⟩).Errors) = true) := by
  refine ⟨?_, ?_, ?_⟩
  · have h := (scattergather_claim7 ⟨some [GoError.base 3 "x"]⟩
      ⟨some [GoError.base 3 "y"]⟩).1
    rw [h]
    refine ⟨by simp [sliceList], ?_⟩
    simp only [sliceList]
    refine List.Forall₂.cons ?_ List.Forall₂.nil
    rw [errorsIs]
    simp
  · exact (scattergather_claim7 ⟨some [GoError.base 3 "x"]⟩ ⟨some []⟩).2.1
      (by simp [sliceList])
  · refine (scattergather_claim7 ⟨none⟩ ⟨none⟩).2.2
      [GoError.base 1 "a", GoError.base 2 "b"] ?_
    intro x hx
    simp only [List.mem_cons, List.not_mem_nil, or_false] at hx
    rcases hx with h | h <;> rw [h, errorsIs] <;> simp

theorem joinMsgs_intercalate (l : List GoError) (acc : String) :
    joinMsgs acc l = String.intercalate "\n" (acc :: l.map errMsg) := by
  induction l generalizing acc with
  | nil =>
    rw [joinMsgs]
    rfl
  | cons e rest ih =>
    rw [joinMsgs, ih]
    rfl

/-- C8: the nil-receiver and empty-collection renderings are distinct
non-empty placeholders, and a non-empty aggregate renders as the
newline-joined concatenation of its errors' messages in sequence order. -/
theorem scattergather_claim8 :
    ScatteredError.Error none = "(nil error)" ∧
    ScatteredError.Error (some ⟨none⟩) = "(empty scattered error)" ∧
    ScatteredError.Error (some ⟨some []⟩) = "(empty scattered error)" ∧
    ("(nil error)" : String) ≠ "" ∧
    ("(empty scattered error)" : String) ≠ "" ∧
    ("(nil error)" : String) ≠ "(empty scattered error)" ∧
    ∀ (h : GoError) (rest : List GoError),
      ScatteredError.Error (some ⟨some (h :: rest)⟩) =
        String.intercalate "\n" ((h :: rest).map errMsg) := by
  refine ⟨rfl, ?_, ?_, by decide, by decide, by decide, ?_⟩
  · show scatteredErrorStr none = "(empty scattered error)"
    rw [scatteredErrorStr]
  · show scatteredErrorStr (some []) = "(empty scattered error)"
    rw [scatteredErrorStr]
  · intro h rest
    show scatteredErrorStr (some (h :: rest)) = _
    rw [scatteredErrorStr, joinMsgs_intercalate]
    simp

/-- C9: `HasErrors` is total on a nil receiver and on empty aggregates,
returning false, and returns true after one `AddError` on a non-nil
aggregate. -/
theorem scattergather_claim9 :
    ScatteredError.HasErrors none = false ∧
    ScatteredError.HasErrors (some ⟨none⟩) = false ∧
    ScatteredError.HasErrors (some ⟨some []⟩) = false ∧
    ∀ (e : ScatteredError) (err : GoError),
      ScatteredError.HasErrors (some (e.AddError err)) = true := by
  refine ⟨rfl, rfl, rfl, ?_⟩
  intro e err
  cases e with
  | mk E =>
    cases E <;> simp [ScatteredError.AddError, ScatteredError.HasErrors]

/-- C10: `Is` returns false for every target that is not a
`*ScatteredError`, whatever the receiver aggregate holds. -/
theorem scattergather_claim10 (e : ScatteredError) (i : Nat) (m : String) :
    e.Is (GoError.base i m) = false := by
  rw [ScatteredError.Is, scatteredIsCore]
